import Mathlib

set_option maxRecDepth 1000000

/-!
# Knowledge Base Query Matcher — shallow embedding

Shallow embedding of the FAQ knowledge-base query matcher of the
`lbscek_ai` repository, together with proofs about its behaviour.

The embedded code is:
* `KnowledgeBase.get_relevant_info` and `KnowledgeBase.extract_specific_answer`
  (with their helpers `_normalize`, `get_question_type`, the
  `question_keywords` taxonomy and the `type_to_fact_keys` table) from
  `app.py`;
* the variant `KnowledgeBase.get_relevant_info` from
  `abhi/src/knowledge_base.py` (pattern pass, then whole-query fuzzy tag
  match at cutoff 0.5);
* the part of Python's `difflib` that both use:
  `SequenceMatcher.ratio` and `get_close_matches`.

Modelling conventions:
* Python strings are Lean `String`s (sequences of Unicode scalar values,
  like Python code points).  `str.lower()` is `String.toLower` (ASCII
  case folding; identical on the ASCII/Malayalam data the program uses,
  Malayalam has no case), `str.strip()` is `strStrip`, the substring
  operator `in` is `List.isInfixOf` on the character lists.
* Python dicts appear in two roles: the `tag_to_entry` dict is modelled
  by its insertion list plus a last-write-wins lookup (`dictLookup`);
  `answer_facts` dicts are association lists in insertion order with
  unique keys (Python dict iteration order is insertion order).
* A dict key that may be absent (`entry.get("tags", [])`) is an
  `Option` field read through `Option.getD`.
* `difflib` ratios are exact rationals `2*M/T` instead of IEEE doubles;
  the `quick_ratio`/`real_quick_ratio` prefilters of
  `get_close_matches` are upper bounds of `ratio` and hence do not
  change which candidates pass the cutoff, so they are not modelled.
  The `autojunk` heuristic of `SequenceMatcher` only activates for
  second sequences of length ≥ 200 and is not modelled.
* `random.choice(xs)` is determinised by passing the random draw as an
  explicit index argument.
-/

namespace KB

/-! ## difflib: SequenceMatcher.ratio and get_close_matches -/

/-- Length of the longest common prefix of two character lists. -/
def lcpLen : List Char → List Char → Nat
  | a :: as, b :: bs => if a = b then lcpLen as bs + 1 else 0
  | _, _ => 0

/-- `SequenceMatcher.find_longest_match` on whole sequences (no junk):
returns `(i, j, k)` such that `a[i:i+k] = b[j:j+k]`, maximising `k` and,
among maximal blocks, minimising `i` and then `j` — the same block the
CPython implementation finds when no element is junk. -/
def findLongestMatch (a b : List Char) : Nat × Nat × Nat :=
  (List.range a.length).foldl (fun best i =>
    (List.range b.length).foldl (fun best j =>
      let k := lcpLen (a.drop i) (b.drop j)
      if best.2.2 < k then (i, j, k) else best) best) (0, 0, 0)

/-- Total size of the matching blocks of `SequenceMatcher.get_matching_blocks`
(the `M` of `ratio = 2*M/T`): the longest match is found, then the
regions to its left and to its right are processed recursively.  The
fuel argument only serves structural recursion; `a.length + b.length`
fuel always suffices, since each recursive call strictly decreases the
total length. -/
def matchingTotalF : Nat → List Char → List Char → Nat
  | 0, _, _ => 0
  | n + 1, a, b =>
    let m := findLongestMatch a b
    let i := m.1; let j := m.2.1; let k := m.2.2
    if k = 0 then 0
    else matchingTotalF n (a.take i) (b.take j) + k +
         matchingTotalF n (a.drop (i + k)) (b.drop (j + k))

def matchingTotal (a b : List Char) : Nat :=
  matchingTotalF (a.length + b.length) a b

/-- `SequenceMatcher(None, a, b).ratio()` as an exact rational:
`2*M/T`, or `1` when both sequences are empty.  Used in the statements
of the theorems below. -/
def ratioQ (a b : String) : ℚ :=
  if a.length + b.length = 0 then 1
  else (2 * matchingTotal a.data b.data : ℚ) / (a.length + b.length)

/-- The ratio of `SequenceMatcher(None, x, word)` as an unreduced
numerator/denominator pair `(2*M, T)`; a zero denominator (two empty
strings) stands for ratio `1`.  The executable comparisons below work
on these pairs by cross-multiplication, which agrees exactly with the
rational `ratioQ` (see `pairLe_iff`). -/
def ratioPair (x word : String) : Nat × Nat :=
  (2 * matchingTotal x.data word.data, x.length + word.length)

/-- `r₁ ≤ r₂` on ratio pairs (`(n, 0)` denotes ratio `1`). -/
def pairLe (r₁ r₂ : Nat × Nat) : Bool :=
  if r₁.2 = 0 then (if r₂.2 = 0 then true else decide (r₂.2 ≤ r₂.1))
  else if r₂.2 = 0 then decide (r₁.1 ≤ r₁.2)
  else decide (r₁.1 * r₂.2 ≤ r₂.1 * r₁.2)

/-- Strict `<` on ratio pairs. -/
def pairLt (r₁ r₂ : Nat × Nat) : Bool := !pairLe r₂ r₁

/-- Equality of the denoted ratios. -/
def pairEqv (r₁ r₂ : Nat × Nat) : Bool := pairLe r₁ r₂ && pairLe r₂ r₁

/-- `difflib.get_close_matches(word, possibilities, n=1, cutoff=cn/cd)`
(`cd ≠ 0`): keep the possibilities whose ratio against `word` reaches
the cutoff (the possibility is the first sequence of the matcher,
`word` the second), then take the largest `(ratio, possibility)` pair —
Python's `heapq.nlargest(1, ...)` compares the pairs lexicographically,
breaking ratio ties by the larger string, and keeps the first of fully
equal pairs. -/
def nlargest1Step (best : Option ((Nat × Nat) × String))
    (p : (Nat × Nat) × String) : Option ((Nat × Nat) × String) :=
  match best with
  | none => some p
  | some q =>
    if pairLt q.1 p.1 ∨ (pairEqv q.1 p.1 ∧ q.2 < p.2) then some p else some q

def getCloseMatch1 (word : String) (possibilities : List String) (cn cd : Nat) :
    Option String :=
  let scored := possibilities.filterMap fun x =>
    if pairLe (cn, cd) (ratioPair x word) then some (ratioPair x word, x) else none
  (scored.foldl nlargest1Step none).map (·.2)

/-! ## Data model -/

/-- One FAQ record as the Python code reads it from JSON.  The
`question_patterns`, `tags` and `answer_facts` keys may be absent from
the underlying dict (`entry.get(..., default)`), hence the `Option`
fields; `answer_facts` is kept in insertion order. -/
structure FaqEntry where
  id : String
  question_patterns : Option (List String) := none
  tags : Option (List String) := none
  answer_facts : Option (List (String × String)) := none
deriving DecidableEq, Repr

/-- Python `str.lower()`.  ASCII case folding, computed character by
character (Malayalam script has no case, so this agrees with Python on
the program's data). -/
def strLower (s : String) : String := ⟨s.data.map Char.toLower⟩

/-- Python `str.strip()`: drop leading and trailing whitespace. -/
def strStrip (s : String) : String :=
  ⟨((s.data.dropWhile Char.isWhitespace).reverse.dropWhile
      Char.isWhitespace).reverse⟩

/-- `KnowledgeBase._normalize`: `text.lower().strip()`. -/
def normalize (s : String) : String := strStrip (strLower s)

/-- Python's substring operator `p in q` on strings: `p` occurs
contiguously in `q`. -/
def isSub (p q : String) : Bool :=
  q.data.tails.any fun t => p.data.isPrefixOf t

/-- Python's bidirectional substring test `p in q or q in p`. -/
def substrTest (p q : String) : Bool :=
  isSub p q || isSub q p

def patternsOf (e : FaqEntry) : List String := e.question_patterns.getD []

/-- The entry's tags, each normalised as the tag-collection loop of
`get_relevant_info` does. -/
def normTags (e : FaqEntry) : List String := (e.tags.getD []).map normalize

def factsOf (e : FaqEntry) : List (String × String) := e.answer_facts.getD []

/-- Helper for `splitWords`: accumulates the current word (reversed). -/
def wordsAux : List Char → List Char → List (List Char)
  | [], acc => if acc.isEmpty then [] else [acc.reverse]
  | c :: cs, acc =>
    if c.isWhitespace then
      if acc.isEmpty then wordsAux cs [] else acc.reverse :: wordsAux cs []
    else wordsAux cs (c :: acc)

/-- Python `s.split()` with no argument: split on whitespace runs,
dropping empty pieces. -/
def splitWords (s : String) : List String :=
  (wordsAux s.data []).map fun l => ⟨l⟩

/-! ## Entry matcher (`KnowledgeBase.get_relevant_info`, app.py) -/

/-- First pass of `get_relevant_info`: for each entry in order, for each
of its question patterns in order, return the entry as soon as the
normalised pattern and the normalised query are in (either-way)
substring relation. -/
def patternPass (q : String) (faqs : List FaqEntry) : Option FaqEntry :=
  faqs.findSome? fun e =>
    (patternsOf e).findSome? fun p =>
      if substrTest (normalize p) (normalize q) then some e else none

/-- The `(normalized tag, owning entry)` pairs in the order the
tag-collection loop of `get_relevant_info` inserts them into
`all_tags` / `tag_to_entry`. -/
def tagPairs (faqs : List FaqEntry) : List (String × FaqEntry) :=
  (faqs.map fun e => (normTags e).map fun t => (t, e)).flatten

/-- `all_tags`: every normalised tag in collection order. -/
def allTags (faqs : List FaqEntry) : List String :=
  (tagPairs faqs).map (·.1)

/-- Lookup in a Python dict built by inserting the given pairs in order:
the *last* write for a key wins. -/
def dictLookup (ps : List (String × FaqEntry)) (t : String) : Option FaqEntry :=
  (ps.reverse.find? fun p => p.1 == t).map (·.2)

/-- Second pass of `get_relevant_info`: scan `all_tags` in collection
order and return `tag_to_entry[tag]` for the first tag that is a
substring of the normalised query. -/
def tagPass (q : String) (faqs : List FaqEntry) : Option FaqEntry :=
  (allTags faqs).findSome? fun t =>
    if isSub t (normalize q) then dictLookup (tagPairs faqs) t else none

/-- Third pass of `get_relevant_info`: for each whitespace-separated
word of the normalised query, if the word is longer than 3 characters,
ask `difflib.get_close_matches(word, all_tags, n=1, cutoff=0.6)` and
return the owning entry of the first hit. -/
def fuzzyPass (q : String) (faqs : List FaqEntry) : Option FaqEntry :=
  (splitWords (normalize q)).findSome? fun w =>
    if 3 < w.length then
      (getCloseMatch1 w (allTags faqs) 3 5).bind (dictLookup (tagPairs faqs))
    else none

/-- `KnowledgeBase.get_relevant_info` of `app.py`: empty knowledge base
returns `None`; otherwise the pattern pass, then the tag-substring
pass, then the fuzzy pass, first hit wins. -/
def get_relevant_info (q : String) (faqs : List FaqEntry) : Option FaqEntry :=
  if faqs.isEmpty then none
  else match patternPass q faqs with
    | some e => some e
    | none => match tagPass q faqs with
      | some e => some e
      | none => fuzzyPass q faqs

/-! ## Entry matcher variant (`abhi/src/knowledge_base.py`)

Same pattern pass and tag collection; instead of the tag-substring and
per-word fuzzy passes, the *whole* normalised query is fuzzy-matched
against all tags at cutoff 0.5. -/

namespace Abhi

def get_relevant_info (q : String) (faqs : List FaqEntry) : Option FaqEntry :=
  if faqs.isEmpty then none
  else match patternPass q faqs with
    | some e => some e
    | none =>
      (getCloseMatch1 (normalize q) (allTags faqs) 1 2).bind
        (dictLookup (tagPairs faqs))

end Abhi

/-! ## Question-type taxonomy (`KnowledgeBase.question_keywords`, app.py) -/

/-- The `question_keywords` mapping, in Python dict insertion order. -/
def question_keywords : List (String × List String) := [
  ("phone", ["phone", "call", "contact number", "telephone", "mobile", "number",
             "ഫോൺ", "നമ്പർ", "വിളിക്കാൻ"]),
  ("email", ["email", "mail", "e-mail", "ഇമെയിൽ", "മെയിൽ"]),
  ("address", ["address", "location", "where", "place", "situated",
               "എവിടെ", "സ്ഥലം", "അഡ്രസ്"]),
  ("website", ["website", "site", "url", "web", "online", "വെബ്സൈറ്റ്"]),
  ("timing", ["timing", "time", "hours", "when", "open", "close", "schedule",
              "സമയം", "എപ്പോൾ"]),
  ("working_hours", ["working hours", "office hours", "office time"]),
  ("fee", ["fee", "fees", "cost", "price", "amount", "charge",
           "ഫീസ്", "പണം", "തുക"]),
  ("tuition", ["tuition", "tuition fee"]),
  ("hostel_fee", ["hostel fee", "hostel charge", "accommodation fee"]),
  ("courses", ["course", "courses", "program", "programmes", "branch",
               "department", "stream", "കോഴ്സ്", "ബ്രാഞ്ച്"]),
  ("seats", ["seats", "intake", "capacity", "how many students"]),
  ("duration", ["duration", "years", "how long", "period"]),
  ("admission", ["admission", "apply", "join", "enroll", "registration",
                 "അഡ്മിഷൻ", "ചേരാൻ"]),
  ("eligibility", ["eligibility", "qualification", "requirement", "criteria",
                   "who can apply"]),
  ("documents", ["documents", "papers", "certificates", "required documents"]),
  ("hostel", ["hostel", "accommodation", "staying", "room", "ഹോസ്റ്റൽ", "താമസം"]),
  ("library", ["library", "books", "reading room", "ലൈബ്രറി", "പുസ്തകം"]),
  ("canteen", ["canteen", "food", "mess", "cafeteria", "ക്യാന്റീൻ", "ഭക്ഷണം"]),
  ("lab", ["lab", "laboratory", "practical", "ലാബ്"]),
  ("sports", ["sports", "games", "playground", "ground", "കളി", "സ്പോർട്സ്"]),
  ("wifi", ["wifi", "internet", "network", "വൈഫൈ"]),
  ("placement", ["placement", "job", "recruit", "company", "career",
                 "പ്ലേസ്മെന്റ്", "ജോലി"]),
  ("salary", ["salary", "package", "ctc", "offer", "ശമ്പളം"]),
  ("companies", ["companies", "recruiters", "which companies"]),
  ("bus", ["bus", "transport", "route", "vehicle", "ബസ്"]),
  ("principal", ["principal", "head", "director", "പ്രിൻസിപ്പൽ"]),
  ("faculty", ["faculty", "teachers", "professors", "staff", "ടീച്ചർ", "അധ്യാപകർ"]),
  ("about", ["about", "tell me about", "what is", "info", "information",
             "എന്താണ്", "കുറിച്ച്"]),
  ("facilities", ["facilities", "amenities", "what facilities", "സൗകര്യങ്ങൾ"])]

/-- `KnowledgeBase.get_question_type`: a category is detected when any
of its keywords occurs in the lower-cased query; detected categories
are collected in taxonomy order, defaulting to `["general"]`. -/
def get_question_type (q : String) : List String :=
  let ql := strLower q
  let detected := question_keywords.filterMap fun tk =>
    if tk.2.any fun k => isSub k ql then some tk.1 else none
  if detected.isEmpty then ["general"] else detected

/-! ## Fact extractor (`KnowledgeBase.extract_specific_answer`, app.py) -/

/-- The `type_to_fact_keys` dict built inside `extract_specific_answer`.
The `"about"` row is computed from the entry's own facts:
`list(facts.keys())[:3] if facts else []`. -/
def type_to_fact_keys (facts : List (String × String)) :
    List (String × List String) := [
  ("phone", ["phone", "contact_phone", "telephone", "mobile"]),
  ("email", ["email", "contact_email", "mail"]),
  ("address", ["address", "full_address", "location"]),
  ("website", ["website", "url", "site"]),
  ("timing", ["timing", "college_timing", "office_timing", "hours", "library_timing"]),
  ("fee", ["fee", "tuition_fee", "total_fee", "fees"]),
  ("hostel_fee", ["hostel_fee", "hostel_charge"]),
  ("courses", ["courses", "programs", "branches"]),
  ("seats", ["seats", "intake", "intake_per_branch"]),
  ("duration", ["duration", "years"]),
  ("admission", ["admission_process", "how_to_apply"]),
  ("eligibility", ["eligibility", "requirement", "minimum_marks"]),
  ("hostel", ["hostel_availability", "facilities", "room_type"]),
  ("library", ["library_timing", "total_books", "seating_capacity"]),
  ("placement", ["placement_rate", "companies", "top_companies"]),
  ("salary", ["highest_package", "average_package", "package"]),
  ("principal", ["principal_name", "name"]),
  ("about", (facts.map Prod.fst).take 3)]

/-- Membership lookup `type_to_fact_keys[q_type]` (`if q_type in
type_to_fact_keys`); the literal keys are distinct, so plain first-match
lookup coincides with dict lookup. -/
def lookupFactKeys (facts : List (String × String)) (t : String) :
    Option (List String) :=
  ((type_to_fact_keys facts).find? fun p => p.1 == t).map (·.2)

/-- The category-driven scan of `extract_specific_answer`: for each
detected question type in order, for each of its candidate fact-key
fragments in order, for each `(key, value)` fact in insertion order,
return `(value, key)` at the first bidirectional substring hit between
the fragment and the lower-cased key. -/
def categoryScan (q : String) (facts : List (String × String)) :
    Option (String × String) :=
  (get_question_type q).findSome? fun t =>
    (lookupFactKeys facts t).bind fun fks =>
      fks.findSome? fun fk =>
        facts.findSome? fun kv =>
          if isSub fk (strLower kv.1) || isSub (strLower kv.1) fk then
            some (kv.2, kv.1)
          else none

/-- The fallback scan of `extract_specific_answer`: for each fact in
insertion order, for each word of the lower-cased query longer than 3
characters, return the fact if the word occurs in the key with
underscores replaced by spaces. -/
def directScan (q : String) (facts : List (String × String)) :
    Option (String × String) :=
  let ql := strLower q
  facts.findSome? fun kv =>
    let kl : String := ⟨(strLower kv.1).data.map fun c => if c = '_' then ' ' else c⟩
    (splitWords ql).findSome? fun w =>
      if 3 < w.length ∧ isSub w kl then some (kv.2, kv.1) else none

/-- `KnowledgeBase.extract_specific_answer` for a non-falsy entry dict
(the `if not kb_entry` guard of the Python code only concerns callers
passing `None` or an empty dict, which the record model excludes):
the category-driven scan, then the direct keyword scan, then
`(None, "")`. -/
def extract_specific_answer (q : String) (e : FaqEntry) :
    Option String × String :=
  match categoryScan q (factsOf e) with
  | some (v, k) => (some v, k)
  | none => match directScan q (factsOf e) with
    | some (v, k) => (some v, k)
    | none => (none, "")

/-! ## Response generation (randomised collaborator, for the
determinism claim) -/

/-- `AIProcessor.generate_not_found_response`, with the draw of
`random.choice` passed in as an index: unlike the matcher and the
extractor, its output depends on the random draw, not only on the
language mode.  (Escapes: `\x27` is the apostrophe.) -/
def generate_not_found_response (r : Nat) (langMode : String) : String :=
  let responses :=
    if langMode = "ml_script" ∨ langMode = "manglish" then
      ["ക്ഷമിക്കണം, ആ വിവരം എന്റെ കയ്യിൽ ഇല്ല. മറ്റെന്തെങ്കിലും ചോദിക്കൂ!",
       "അത് എനിക്ക് അറിയില്ല. വേറെ എന്തെങ്കിലും ചോദിക്കാമോ?"]
    else
      ["Sorry, I don\x27t have that specific information. Try asking something else!",
       "I couldn\x27t find that. Can I help with something else about the college?"]
  responses.getD (r % responses.length) ""

/-- The rational ratio denoted by a ratio pair. -/
def pairQ (r : Nat × Nat) : ℚ := if r.2 = 0 then 1 else (r.1 : ℚ) / r.2

/-- Whether some question pattern of `e` matches the query, exactly as
the pattern pass tests it. -/
def hasPatternMatch (q : String) (e : FaqEntry) : Bool :=
  (patternsOf e).any fun p => substrTest (normalize p) (normalize q)

/-! ## Concrete entries used in counterexamples and witnesses -/

/-- Entry whose only question pattern is the empty string. -/
def entEmptyPat : FaqEntry := { id := "A", question_patterns := some [""] }

/-- Entry with the single non-empty pattern `"x"`. -/
def entXPat : FaqEntry := { id := "B", question_patterns := some ["x"] }

/-- Entry with the single pattern `"a"`. -/
def entPatA : FaqEntry := { id := "E1", question_patterns := some ["a"] }

/-- Entry with the single pattern `"ab"`. -/
def entPatAB : FaqEntry := { id := "E2", question_patterns := some ["ab"] }

/-- Entry owning tag `"fee"`, listed first. -/
def entFeeFirst : FaqEntry := { id := "T1", tags := some ["fee"] }

/-- Entry owning tags `"fee"` and `"extra"`, listed second. -/
def entFeeSecond : FaqEntry := { id := "T2", tags := some ["fee", "extra"] }

/-- Entry with no patterns, no tags and no facts. -/
def entBlank : FaqEntry := { id := "Z" }

/-- The library entry of the spec's worked example. -/
def entLibrary : FaqEntry :=
  { id := "A", question_patterns := some ["library hours"],
    tags := some ["library"],
    answer_facts := some [("library_timing", "9 to 5")] }

/-- Entry with two timing facts, to pin the scanning order. -/
def entTwoTimings : FaqEntry :=
  { id := "C",
    answer_facts := some [("college_timing", "A"), ("library_timing", "B")] }

/-- Entry whose single fact key starts with an upper-case letter. -/
def entUpperFact : FaqEntry :=
  { id := "U", answer_facts := some [("Phone", "123")] }

/-- Entry with a single lower-case fact key. -/
def entPhoneFact : FaqEntry :=
  { id := "P", answer_facts := some [("phone", "123")] }

/-- The courses entry of the spec's fuzzy-matching example. -/
def entCourses : FaqEntry :=
  { id := "B", question_patterns := some [], tags := some ["courses"],
    answer_facts := some [("courses", "CS, EEE, ME")] }

/-- Replace an absent `tags` or `answer_facts` key by an explicitly
empty collection — the default `entry.get(..., default)` supplies. -/
def fillDefaults (e : FaqEntry) : FaqEntry :=
  { id := e.id, question_patterns := e.question_patterns,
    tags := some (e.tags.getD []),
    answer_facts := some (e.answer_facts.getD []) }

/-! ## Helper lemmas -/

theorem ratioQ_eq_pairQ (x w : String) : ratioQ x w = pairQ (ratioPair x w) := by
  simp only [ratioQ, pairQ, ratioPair]
  split <;> push_cast <;> ring_nf

theorem pairLe_iff (r₁ r₂ : Nat × Nat) :
    pairLe r₁ r₂ = true ↔ pairQ r₁ ≤ pairQ r₂ := by
  obtain ⟨n₁, d₁⟩ := r₁; obtain ⟨n₂, d₂⟩ := r₂
  simp only [pairLe, pairQ]
  rcases Nat.eq_zero_or_pos d₁ with h₁ | h₁ <;>
    rcases Nat.eq_zero_or_pos d₂ with h₂ | h₂
  · subst h₁; subst h₂; simp
  · subst h₁
    have hd₂ : d₂ ≠ 0 := Nat.pos_iff_ne_zero.mp h₂
    have hq₂ : (0 : ℚ) < d₂ := by exact_mod_cast h₂
    simp [hd₂, one_le_div hq₂]
  · subst h₂
    have hd₁ : d₁ ≠ 0 := Nat.pos_iff_ne_zero.mp h₁
    have hq₁ : (0 : ℚ) < d₁ := by exact_mod_cast h₁
    simp [hd₁, div_le_one hq₁]
  · have hd₁ : d₁ ≠ 0 := Nat.pos_iff_ne_zero.mp h₁
    have hd₂ : d₂ ≠ 0 := Nat.pos_iff_ne_zero.mp h₂
    have hq₁ : (0 : ℚ) < d₁ := by exact_mod_cast h₁
    have hq₂ : (0 : ℚ) < d₂ := by exact_mod_cast h₂
    simp only [hd₁, hd₂, if_false, div_le_div_iff₀ hq₁ hq₂, decide_eq_true_eq,
      ← Nat.cast_mul, Nat.cast_le]

theorem pairLt_iff (r₁ r₂ : Nat × Nat) :
    pairLt r₁ r₂ = true ↔ pairQ r₁ < pairQ r₂ := by
  simp only [pairLt, Bool.not_eq_true']
  rw [← not_le, ← pairLe_iff]
  simp

theorem pairEqv_iff (r₁ r₂ : Nat × Nat) :
    pairEqv r₁ r₂ = true ↔ pairQ r₁ = pairQ r₂ := by
  simp only [pairEqv, Bool.and_eq_true, pairLe_iff]
  exact ⟨fun h => le_antisymm h.1 h.2, fun h => ⟨le_of_eq h, ge_of_eq h⟩⟩

theorem isSub_iff {p q : String} : isSub p q = true ↔ p.data <:+: q.data := by
  simp only [isSub, List.any_eq_true, List.mem_tails, List.isPrefixOf_iff_prefix]
  constructor
  · rintro ⟨t, ht, hp⟩
    exact List.infix_iff_prefix_suffix.mpr ⟨t, hp, ht⟩
  · intro h
    obtain ⟨t, hp, ht⟩ := List.infix_iff_prefix_suffix.mp h
    exact ⟨t, ht, hp⟩

theorem isSub_refl (p : String) : isSub p p = true :=
  isSub_iff.mpr (List.infix_refl _)

theorem isSub_empty (q : String) : isSub "" q = true :=
  isSub_iff.mpr List.nil_infix

theorem substrTest_refl (p : String) : substrTest p p = true := by
  simp [substrTest, isSub_refl]

/-- A `findSome?` whose body returns a constant value under a guard is a
guarded `any`. -/
theorem findSome?_guard {α β : Type} (l : List α) (g : α → Bool) (c : β) :
    (l.findSome? fun a => if g a then some c else none) =
      if l.any g then some c else none := by
  induction l with
  | nil => rfl
  | cons a l ih =>
    rw [List.findSome?_cons]
    cases h : g a <;> simp [h, ih]

theorem findSome?_congr {α β : Type} {l : List α} {f g : α → Option β}
    (h : ∀ a ∈ l, f a = g a) : l.findSome? f = l.findSome? g := by
  induction l with
  | nil => rfl
  | cons a l ih =>
    rw [List.findSome?_cons, List.findSome?_cons, h a (by simp)]
    cases g a with
    | none => exact ih fun a ha => h a (by simp [ha])
    | some b => rfl

/-- `findSome?` commutes with postcomposing the body by `Option.map`. -/
theorem findSome?_map_opt {α β γ : Type} {l : List α} {f : α → Option β}
    {g : α → Option γ} {h : β → γ} (hfg : ∀ a ∈ l, g a = (f a).map h) :
    l.findSome? g = (l.findSome? f).map h := by
  induction l with
  | nil => rfl
  | cons a l ih =>
    rw [List.findSome?_cons, List.findSome?_cons, hfg a (by simp)]
    cases f a with
    | none => exact ih fun a ha => hfg a (by simp [ha])
    | some b => rfl

theorem findSome?_isSome_of_mem {α β : Type} {l : List α} {f : α → Option β}
    {a : α} (ha : a ∈ l) (hf : (f a).isSome) : (l.findSome? f).isSome := by
  induction l with
  | nil => cases ha
  | cons x l ih =>
    rw [List.findSome?_cons]
    cases hx : f x with
    | some b => rfl
    | none =>
      rcases List.mem_cons.mp ha with rfl | ha
      · rw [hx] at hf; cases hf
      · exact ih ha

/-- A `findSome?` that returns the scanned element itself under a guard
is a `find?`. -/
theorem findSome?_guard_self {α : Type} (l : List α) (g : α → Bool) :
    (l.findSome? fun x => if g x then some x else none) = l.find? g := by
  induction l with
  | nil => rfl
  | cons a l ih =>
    rw [List.findSome?_cons, List.find?_cons]
    cases h : g a <;> simp [h, ih]

theorem find?_congr {α : Type} {l : List α} {p q : α → Bool}
    (h : ∀ x ∈ l, p x = q x) : l.find? p = l.find? q := by
  induction l with
  | nil => rfl
  | cons a l ih =>
    rw [List.find?_cons, List.find?_cons, h a (by simp)]
    cases q a with
    | false => exact ih fun x hx => h x (by simp [hx])
    | true => rfl

/-! ## Facts about the pattern pass -/

theorem patternPass_eq_find (q : String) (es : List FaqEntry) :
    patternPass q es =
      es.findSome? fun e => if hasPatternMatch q e then some e else none := by
  unfold patternPass
  exact findSome?_congr fun e _ =>
    findSome?_guard (patternsOf e) (fun p => substrTest (normalize p) (normalize q)) e

theorem patternPass_first (q : String) (es₁ es₂ : List FaqEntry) (e : FaqEntry)
    (h₁ : ∀ x ∈ es₁, hasPatternMatch q x = false)
    (he : hasPatternMatch q e = true) :
    patternPass q (es₁ ++ e :: es₂) = some e := by
  rw [patternPass_eq_find, List.findSome?_append]
  have hnone : (es₁.findSome? fun x =>
      if hasPatternMatch q x then some x else none) = none := by
    rw [List.findSome?_eq_none_iff]
    intro x hx
    simp [h₁ x hx]
  rw [hnone, List.findSome?_cons]
  simp [he]

theorem patternPass_eq_none_iff (q : String) (es : List FaqEntry) :
    patternPass q es = none ↔ ∀ e ∈ es, hasPatternMatch q e = false := by
  rw [patternPass_eq_find, List.findSome?_eq_none_iff]
  constructor
  · intro h e he
    have := h e he
    by_contra hb
    simp [Bool.not_eq_false] at hb
    simp [hb] at this
  · intro h e he
    simp [h e he]

theorem patternPass_mem {q : String} {es : List FaqEntry} {e : FaqEntry}
    (h : patternPass q es = some e) : e ∈ es ∧ hasPatternMatch q e = true := by
  rw [patternPass_eq_find] at h
  obtain ⟨a, ha, hfa⟩ := List.exists_of_findSome?_eq_some h
  by_cases hm : hasPatternMatch q a = true
  · simp [hm] at hfa
    subst hfa
    exact ⟨ha, hm⟩
  · simp [hm] at hfa

theorem get_relevant_info_of_patternPass {q : String} {es : List FaqEntry}
    {e : FaqEntry} (h : patternPass q es = some e) :
    get_relevant_info q es = some e := by
  have hne : es ≠ [] := by
    intro h'
    subst h'
    simp [patternPass] at h
  unfold get_relevant_info
  rw [if_neg (by simp [hne]), h]

/-! ## Facts about the tag map -/

theorem tagPairs_nil : tagPairs [] = [] := rfl

theorem tagPairs_cons (e : FaqEntry) (es : List FaqEntry) :
    tagPairs (e :: es) =
      ((normTags e).map fun t => (t, e)) ++ tagPairs es := by
  simp [tagPairs]

theorem tagPairs_append (l₁ l₂ : List FaqEntry) :
    tagPairs (l₁ ++ l₂) = tagPairs l₁ ++ tagPairs l₂ := by
  simp [tagPairs, List.map_append, List.flatten_append]

theorem mem_tagPairs {pr : String × FaqEntry} {es : List FaqEntry} :
    pr ∈ tagPairs es ↔ ∃ e ∈ es, ∃ t ∈ normTags e, pr = (t, e) := by
  simp only [tagPairs, List.mem_flatten, List.mem_map]
  constructor
  · rintro ⟨l, ⟨e, he, rfl⟩, hpr⟩
    obtain ⟨t, ht, rfl⟩ := List.mem_map.mp hpr
    exact ⟨e, he, t, ht, rfl⟩
  · rintro ⟨e, he, t, ht, rfl⟩
    exact ⟨(normTags e).map fun t => (t, e), ⟨e, he, rfl⟩,
      List.mem_map.mpr ⟨t, ht, rfl⟩⟩

/-- Whatever the dict lookup returns owns the looked-up tag. -/
theorem dictLookup_mem {es : List FaqEntry} {t : String} {e : FaqEntry}
    (h : dictLookup (tagPairs es) t = some e) :
    e ∈ es ∧ t ∈ normTags e := by
  unfold dictLookup at h
  cases hf : (tagPairs es).reverse.find? fun p => p.1 == t with
  | none => rw [hf] at h; cases h
  | some pr =>
    rw [hf] at h
    have hpr : pr.2 = e := by simpa using h
    have hbeq := List.find?_some hf
    have hmem := List.mem_of_find?_eq_some hf
    rw [List.mem_reverse] at hmem
    obtain ⟨e', he', t', ht', rfl⟩ := mem_tagPairs.mp hmem
    simp only [beq_iff_eq] at hbeq
    subst hbeq
    cases hpr
    exact ⟨he', ht'⟩

theorem normalize_empty : normalize "" = "" := rfl

/-- With an empty query every pattern matches (the empty string is a
substring of everything), so an entry matches exactly when its pattern
list is non-empty. -/
theorem hasPatternMatch_empty_query (e : FaqEntry) :
    hasPatternMatch "" e = !(patternsOf e).isEmpty := by
  unfold hasPatternMatch
  have hall : ∀ p : String, substrTest (normalize p) (normalize "") = true := by
    intro p
    rw [normalize_empty]
    simp [substrTest, isSub_empty]
  cases hp : patternsOf e with
  | nil => simp
  | cons a l => simp [hall]

/-! ## Claims -/

/-- **C4, counterexample.**  The claim says the empty query returns the
first entry with a non-empty pattern.  Here the first entry's only
pattern is the empty string — it has no non-empty pattern — and the
second entry's pattern `"x"` is non-empty, yet `get_relevant_info`
returns the first entry: the empty normalized query is a substring of
the empty pattern as well. -/
theorem c4_counterexample :
    get_relevant_info "" [entEmptyPat, entXPat] = some entEmptyPat ∧
    entEmptyPat ≠ entXPat ∧
    patternsOf entEmptyPat = [""] ∧ patternsOf entXPat = ["x"] :=
  ⟨by decide, by decide, rfl, rfl⟩

/-- **C4 (amended).**  For the empty query string and any entry
sequence containing at least one entry with a non-empty *pattern list*,
`get_relevant_info` returns the first entry whose pattern list is
non-empty (an empty-string pattern also counts, since the empty
normalized query is a substring of every pattern). -/
theorem c4_empty_query (es : List FaqEntry)
    (h : ∃ e ∈ es, patternsOf e ≠ []) :
    get_relevant_info "" es = es.find? fun e => !(patternsOf e).isEmpty := by
  obtain ⟨e, he, hne⟩ := h
  have hpp : patternPass "" es = es.find? fun x => !(patternsOf x).isEmpty := by
    rw [patternPass_eq_find]
    rw [findSome?_congr fun x _ => by rw [hasPatternMatch_empty_query x]]
    exact findSome?_guard_self es fun x => !(patternsOf x).isEmpty
  have hsome : (es.find? fun x => !(patternsOf x).isEmpty).isSome :=
    List.find?_isSome.mpr ⟨e, he, by simp [hne]⟩
  obtain ⟨v, hv⟩ := Option.isSome_iff_exists.mp (hpp ▸ hsome :
    (patternPass "" es).isSome)
  rw [get_relevant_info_of_patternPass hv, ← hpp, hv]

/-- Witness for `c4_empty_query` at a concrete input. -/
theorem c4_empty_query_witness :
    get_relevant_info "" [entXPat] =
      [entXPat].find? fun e => !(patternsOf e).isEmpty :=
  c4_empty_query [entXPat] ⟨entXPat, by simp, by decide⟩

/-- **C7, counterexample.**  The query `"ab"` normalizes to exactly the
pattern of the second entry, but `get_relevant_info` returns the
*first* entry, whose pattern `"a"` merely matches as a substring: an
exact pattern match does not win over an earlier substring match. -/
theorem c7_counterexample :
    normalize "ab" ∈ (patternsOf entPatAB).map normalize ∧
    get_relevant_info "ab" [entPatA, entPatAB] = some entPatA ∧
    entPatA ≠ entPatAB :=
  ⟨by decide, by decide, by decide⟩

/-- **C7 (amended).**  If the normalized query equals some entry's
normalized pattern, `get_relevant_info` returns *some* entry (possibly
an earlier entry whose pattern matches as a substring, not necessarily
the exactly-matching one); and on a single-entry list, every pattern of
the entry finds that entry (reflexivity of exact pattern match). -/
theorem c7_exact_pattern_match :
    (∀ (q : String) (es : List FaqEntry),
      (∃ e ∈ es, ∃ p ∈ patternsOf e, normalize p = normalize q) →
      (get_relevant_info q es).isSome) ∧
    (∀ (E : FaqEntry) (P : String), P ∈ patternsOf E →
      get_relevant_info P [E] = some E) := by
  constructor
  · rintro q es ⟨e, he, p, hp, hnorm⟩
    have hm : hasPatternMatch q e = true := by
      unfold hasPatternMatch
      rw [List.any_eq_true]
      exact ⟨p, hp, by rw [hnorm]; exact substrTest_refl _⟩
    have : (patternPass q es).isSome := by
      rw [patternPass_eq_find]
      exact findSome?_isSome_of_mem he (by simp [hm])
    obtain ⟨v, hv⟩ := Option.isSome_iff_exists.mp this
    rw [get_relevant_info_of_patternPass hv]
    rfl
  · intro E P hP
    have hm : hasPatternMatch P E = true := by
      unfold hasPatternMatch
      rw [List.any_eq_true]
      exact ⟨P, hP, substrTest_refl _⟩
    exact get_relevant_info_of_patternPass
      (patternPass_first P [] [] E (by simp) hm)

/-- Witness for `c7_exact_pattern_match` at a concrete input. -/
theorem c7_exact_pattern_match_witness :
    get_relevant_info "x" [entXPat] = some entXPat :=
  c7_exact_pattern_match.2 entXPat "x" (by decide)

/-- **C5.**  When entries share a normalized tag, the tag-to-entry
mapping assigns the tag to the *last* entry in the list that owns it
(last-write-wins): the lookup used by both tag passes returns that
entry, never an earlier one, for any prefix `xs` (which may contain
earlier owners of `t`) and any suffix `ys` without further owners. -/
theorem c5_duplicate_tag_last_wins (xs ys : List FaqEntry) (e₂ : FaqEntry)
    (t : String) (ht : t ∈ normTags e₂) (hys : ∀ e ∈ ys, t ∉ normTags e) :
    dictLookup (tagPairs (xs ++ e₂ :: ys)) t = some e₂ := by
  rw [tagPairs_append, tagPairs_cons]
  unfold dictLookup
  rw [List.reverse_append, List.reverse_append, List.find?_append,
    List.find?_append]
  have hC : ((tagPairs ys).reverse.find? fun p => p.1 == t) = none := by
    rw [List.find?_eq_none]
    intro pr hpr
    rw [List.mem_reverse] at hpr
    obtain ⟨e, he, t', ht', rfl⟩ := mem_tagPairs.mp hpr
    simp only [beq_iff_eq]
    rintro rfl
    exact hys e he ht'
  have hBsome : ((((normTags e₂).map fun t' => (t', e₂)).reverse.find?
      fun p => p.1 == t)).isSome :=
    List.find?_isSome.mpr ⟨(t, e₂),
      List.mem_reverse.mpr (List.mem_map.mpr ⟨t, ht, rfl⟩), by simp⟩
  obtain ⟨pr, hpr⟩ := Option.isSome_iff_exists.mp hBsome
  have hpr2 : pr.2 = e₂ := by
    have hmem := List.mem_of_find?_eq_some hpr
    rw [List.mem_reverse] at hmem
    obtain ⟨t', _, rfl⟩ := List.mem_map.mp hmem
    rfl
  rw [hC, hpr]
  simp [hpr2]

/-- Witness for `c5_duplicate_tag_last_wins`: two entries share tag
`"fee"`; the lookup returns the second. -/
theorem c5_duplicate_tag_last_wins_witness :
    dictLookup (tagPairs ([entFeeFirst] ++ entFeeSecond :: [])) "fee" =
      some entFeeSecond :=
  c5_duplicate_tag_last_wins [entFeeFirst] [] entFeeSecond "fee"
    (by decide) (by simp)

theorem tagPass_nil (q : String) : tagPass q [] = none := rfl

theorem fuzzyPass_nil (q : String) : fuzzyPass q [] = none := by
  unfold fuzzyPass
  rw [List.findSome?_eq_none_iff]
  intro w _
  have hg : getCloseMatch1 w (allTags []) 3 5 = none := rfl
  simp [hg]

/-- **C1.**  The three rules of `get_relevant_info` apply in strict
priority order: if, scanning entries in order, `e` is the first entry
with a matching pattern, the result is `e` immediately (tags are never
consulted); and when no entry has a matching pattern, the result is
exactly the tag-substring pass, then — only if that fails — the fuzzy
pass. -/
theorem c1_priority :
    (∀ (q : String) (es₁ es₂ : List FaqEntry) (e : FaqEntry),
      (∀ x ∈ es₁, hasPatternMatch q x = false) →
      hasPatternMatch q e = true →
      get_relevant_info q (es₁ ++ e :: es₂) = some e) ∧
    (∀ (q : String) (es : List FaqEntry),
      (∀ x ∈ es, hasPatternMatch q x = false) →
      get_relevant_info q es = (tagPass q es).or (fuzzyPass q es)) := by
  constructor
  · intro q es₁ es₂ e h₁ he
    exact get_relevant_info_of_patternPass (patternPass_first q es₁ es₂ e h₁ he)
  · intro q es h
    have hpp : patternPass q es = none := (patternPass_eq_none_iff q es).mpr h
    cases es with
    | nil => simp [get_relevant_info, tagPass_nil, fuzzyPass_nil]
    | cons a l =>
      unfold get_relevant_info
      rw [if_neg (by simp), hpp]
      cases htag : tagPass q (a :: l) with
      | some e => simp
      | none => simp

/-- Witness for `c1_priority`: the first entry has no matching pattern,
the second does, and it is returned. -/
theorem c1_priority_witness :
    get_relevant_info "x" ([entPatAB] ++ entXPat :: []) = some entXPat :=
  c1_priority.1 "x" [entPatAB] [] entXPat (by decide) (by decide)

/-- `get_relevant_info` as the chaining of its three passes. -/
theorem get_relevant_info_eq_or (q : String) (es : List FaqEntry) :
    get_relevant_info q es =
      (patternPass q es).or ((tagPass q es).or (fuzzyPass q es)) := by
  cases es with
  | nil =>
    have hp : patternPass q [] = none := rfl
    simp [get_relevant_info, hp, tagPass_nil, fuzzyPass_nil]
  | cons a l =>
    unfold get_relevant_info
    rw [if_neg (by simp)]
    cases hp : patternPass q (a :: l) with
    | some e => simp
    | none =>
      cases htg : tagPass q (a :: l) with
      | some e => simp
      | none => simp

/-- A result of the tag-substring pass comes from the tag dict. -/
theorem tagPass_mem {q : String} {es : List FaqEntry} {e : FaqEntry}
    (h : tagPass q es = some e) :
    ∃ t, dictLookup (tagPairs es) t = some e := by
  unfold tagPass at h
  obtain ⟨t, _, hbody⟩ := List.exists_of_findSome?_eq_some h
  by_cases hs : isSub t (normalize q) = true
  · rw [if_pos hs] at hbody
    exact ⟨t, hbody⟩
  · simp [hs] at hbody

/-- A result of the fuzzy pass comes from the tag dict. -/
theorem fuzzyPass_mem {q : String} {es : List FaqEntry} {e : FaqEntry}
    (h : fuzzyPass q es = some e) :
    ∃ t, dictLookup (tagPairs es) t = some e := by
  unfold fuzzyPass at h
  obtain ⟨w, _, hbody⟩ := List.exists_of_findSome?_eq_some h
  by_cases hlen : 3 < w.length
  · rw [if_pos hlen] at hbody
    obtain ⟨t, _, hlk⟩ := Option.bind_eq_some.mp hbody
    exact ⟨t, hlk⟩
  · simp [hlen] at hbody

/-- Any returned entry matched a pattern or owns a tag. -/
theorem get_relevant_info_cases {q : String} {es : List FaqEntry}
    {e : FaqEntry} (h : get_relevant_info q es = some e) :
    (e ∈ es ∧ hasPatternMatch q e = true) ∨ ∃ t, t ∈ normTags e ∧ e ∈ es := by
  rw [get_relevant_info_eq_or] at h
  cases hp : patternPass q es with
  | some e' =>
    rw [hp] at h
    have h2 : e' = e := by simpa using h
    subst h2
    exact Or.inl (patternPass_mem hp)
  | none =>
    rw [hp, Option.none_or] at h
    have : ∃ t, dictLookup (tagPairs es) t = some e := by
      cases htg : tagPass q es with
      | some e' =>
        rw [htg] at h
        have h2 : e' = e := by simpa using h
        subst h2
        exact tagPass_mem htg
      | none =>
        rw [htg, Option.none_or] at h
        exact fuzzyPass_mem h
    obtain ⟨t, hlk⟩ := this
    obtain ⟨hmem, ht⟩ := dictLookup_mem hlk
    exact Or.inr ⟨t, ht, hmem⟩

/-- **C9.**  An entry with empty patterns, tags and facts is matchable
by nothing and extractable to nothing: `get_relevant_info` never
returns it and `extract_specific_answer` on it yields `(none, "")`. -/
theorem c9_blank_entry (q : String) (es : List FaqEntry) (e : FaqEntry)
    (hp : patternsOf e = []) (htg : e.tags.getD [] = [])
    (hf : factsOf e = []) :
    get_relevant_info q es ≠ some e ∧
    extract_specific_answer q e = (none, "") := by
  constructor
  · intro hcontra
    rcases get_relevant_info_cases hcontra with ⟨_, hm⟩ | ⟨t, ht, _⟩
    · rw [hasPatternMatch, hp] at hm
      simp at hm
    · rw [normTags, htg] at ht
      simp at ht
  · have h1 : categoryScan q [] = none := by
      unfold categoryScan
      rw [List.findSome?_eq_none_iff]
      intro t _
      cases hlk : lookupFactKeys [] t with
      | none => rfl
      | some fks => simp [List.findSome?_eq_none_iff]
    have h2 : directScan q [] = none := rfl
    simp [extract_specific_answer, hf, h1, h2]

/-- Witness for `c9_blank_entry` at a concrete input. -/
theorem c9_blank_entry_witness :
    get_relevant_info "x" [entBlank, entXPat] ≠ some entBlank ∧
    extract_specific_answer "x" entBlank = (none, "") :=
  c9_blank_entry "x" [entBlank, entXPat] entBlank rfl rfl rfl

/-- **C3.**  `extract_specific_answer` tries the category-driven scan
first and returns its first hit as `(value, key)`; on the spec's worked
example the entry with fact `library_timing ↦ "9 to 5"` and the query
`"library hours"` yield `("9 to 5", "library_timing")`.  The third
conjunct pins the scanning order (detected categories in taxonomy
order, fragments in order, facts in insertion order): with facts
`college_timing ↦ A, library_timing ↦ B` the fragment `"timing"` of the
first detected category already hits the first fact, so `college_timing`
wins although the `library` category would have preferred
`library_timing`. -/
theorem c3_extract_by_category :
    (∀ (q : String) (e : FaqEntry) (v k : String),
      categoryScan q (factsOf e) = some (v, k) →
      extract_specific_answer q e = (some v, k)) ∧
    extract_specific_answer "library hours" entLibrary =
      (some "9 to 5", "library_timing") ∧
    extract_specific_answer "library hours" entTwoTimings =
      (some "A", "college_timing") := by
  refine ⟨?_, by decide, by decide⟩
  intro q e v k h
  unfold extract_specific_answer
  rw [h]

/-- Witness for `c3_extract_by_category` at a concrete input. -/
theorem c3_extract_by_category_witness :
    extract_specific_answer "phone" entPhoneFact = (some "123", "phone") :=
  c3_extract_by_category.1 "phone" entPhoneFact "123" "phone" (by decide)

theorem lookupFactKeys_about (facts : List (String × String)) :
    lookupFactKeys facts "about" = some ((facts.map Prod.fst).take 3) := rfl

/-- **C6, counterexample.**  The claim says an `"about"` query always
extracts some fact from an entry with non-empty `answer_facts`.  With
the single fact key `"Phone"` the dynamically computed fragment
`"Phone"` is *not* lower-cased while the key it is compared against is,
so neither direction of the substring test fires and extraction
returns the empty result. -/
theorem c6_counterexample :
    "about" ∈ get_question_type "about" ∧
    factsOf entUpperFact ≠ [] ∧
    extract_specific_answer "about" entUpperFact = (none, "") :=
  ⟨by decide, by decide, by decide⟩

/-- **C6 (amended).**  For every query whose detected category set
contains `"about"` and every entry whose `answer_facts` is non-empty
with keys unchanged by lower-casing (the snake_case keys the data model
prescribes), `extract_specific_answer` returns some fact: the first
dynamic fragment is the first key itself, which matches itself. -/
theorem c6_about_extracts (q : String) (e : FaqEntry)
    (hab : "about" ∈ get_question_type q) (hne : factsOf e ≠ [])
    (hlow : ∀ kv ∈ factsOf e, strLower kv.1 = kv.1) :
    (extract_specific_answer q e).1 ≠ none := by
  obtain ⟨kv, rest, hfe⟩ : ∃ kv rest, factsOf e = kv :: rest := by
    cases hfe : factsOf e with
    | nil => exact absurd hfe hne
    | cons kv rest => exact ⟨kv, rest, rfl⟩
  have hk : strLower kv.1 = kv.1 := hlow kv (by rw [hfe]; simp)
  have habout : (((lookupFactKeys (factsOf e) "about").bind fun fks =>
      fks.findSome? fun fk => (factsOf e).findSome? fun kv2 =>
        if isSub fk (strLower kv2.1) || isSub (strLower kv2.1) fk then
          some (kv2.2, kv2.1)
        else none)).isSome := by
    rw [lookupFactKeys_about, hfe]
    simp only [Option.some_bind, List.map_cons, List.take_succ_cons,
      List.findSome?_cons, hk, isSub_refl, Bool.true_or, if_pos]
    rfl
  have hsome : (categoryScan q (factsOf e)).isSome := by
    unfold categoryScan
    exact findSome?_isSome_of_mem hab habout
  obtain ⟨⟨v, k⟩, hvk⟩ := Option.isSome_iff_exists.mp hsome
  unfold extract_specific_answer
  rw [hvk]
  simp

/-- Witness for `c6_about_extracts` at a concrete input. -/
theorem c6_about_extracts_witness :
    (extract_specific_answer "about" entPhoneFact).1 ≠ none :=
  c6_about_extracts "about" entPhoneFact (by decide) (by decide) (by decide)

/-! ## Missing-key tolerance (C8) -/

theorem patternsOf_fill (e : FaqEntry) :
    patternsOf (fillDefaults e) = patternsOf e := rfl

theorem normTags_fill (e : FaqEntry) :
    normTags (fillDefaults e) = normTags e := rfl

theorem factsOf_fill (e : FaqEntry) :
    factsOf (fillDefaults e) = factsOf e := rfl

theorem patternPass_map_fill (q : String) (es : List FaqEntry) :
    patternPass q (es.map fillDefaults) =
      (patternPass q es).map fillDefaults := by
  rw [patternPass_eq_find, patternPass_eq_find]
  induction es with
  | nil => rfl
  | cons a l ih =>
    rw [List.map_cons, List.findSome?_cons, List.findSome?_cons]
    have hm : hasPatternMatch q (fillDefaults a) = hasPatternMatch q a := rfl
    rw [hm]
    cases h : hasPatternMatch q a with
    | true => simp
    | false => simp [ih]

theorem tagPairs_map_fill (es : List FaqEntry) :
    tagPairs (es.map fillDefaults) =
      (tagPairs es).map fun pr => (pr.1, fillDefaults pr.2) := by
  induction es with
  | nil => rfl
  | cons a l ih =>
    rw [List.map_cons, tagPairs_cons, tagPairs_cons, List.map_append, ih,
      normTags_fill, List.map_map]
    rfl

theorem allTags_map_fill (es : List FaqEntry) :
    allTags (es.map fillDefaults) = allTags es := by
  unfold allTags
  rw [tagPairs_map_fill, List.map_map]
  rfl

theorem dictLookup_map_fill (es : List FaqEntry) (t : String) :
    dictLookup ((tagPairs es).map fun pr => (pr.1, fillDefaults pr.2)) t =
      (dictLookup (tagPairs es) t).map fillDefaults := by
  unfold dictLookup
  rw [← List.map_reverse, List.find?_map]
  have hc : ((fun p : String × FaqEntry => p.1 == t) ∘
      fun pr : String × FaqEntry => (pr.1, fillDefaults pr.2)) =
      fun p : String × FaqEntry => p.1 == t := rfl
  rw [hc]
  cases (tagPairs es).reverse.find? fun p => p.1 == t <;> rfl

theorem tagPass_map_fill (q : String) (es : List FaqEntry) :
    tagPass q (es.map fillDefaults) = (tagPass q es).map fillDefaults := by
  unfold tagPass
  rw [allTags_map_fill]
  refine findSome?_map_opt fun t _ => ?_
  by_cases hs : isSub t (normalize q) = true
  · rw [if_pos hs, if_pos hs, tagPairs_map_fill, dictLookup_map_fill]
  · rw [if_neg hs, if_neg hs]
    rfl

theorem fuzzyPass_map_fill (q : String) (es : List FaqEntry) :
    fuzzyPass q (es.map fillDefaults) = (fuzzyPass q es).map fillDefaults := by
  unfold fuzzyPass
  rw [allTags_map_fill]
  refine findSome?_map_opt fun w _ => ?_
  by_cases hlen : 3 < w.length
  · rw [if_pos hlen, if_pos hlen, tagPairs_map_fill]
    cases getCloseMatch1 w (allTags es) 3 5 with
    | none => rfl
    | some t => exact dictLookup_map_fill es t
  · rw [if_neg hlen, if_neg hlen]
    rfl

/-- **C8.**  Entries lacking the `tags` or `answer_facts` key behave
exactly as if the missing collection were empty: filling the defaults
changes nothing about matching or extraction (and both functions are
total by construction — there is no error to raise).  The matcher's
result is the same entry, filled. -/
theorem c8_missing_keys_as_empty :
    (∀ (q : String) (es : List FaqEntry),
      get_relevant_info q (es.map fillDefaults) =
        (get_relevant_info q es).map fillDefaults) ∧
    (∀ (q : String) (e : FaqEntry),
      extract_specific_answer q (fillDefaults e) =
        extract_specific_answer q e) := by
  constructor
  · intro q es
    rw [get_relevant_info_eq_or, get_relevant_info_eq_or,
      patternPass_map_fill, tagPass_map_fill, fuzzyPass_map_fill]
    cases patternPass q es <;> cases tagPass q es <;>
      cases fuzzyPass q es <;> rfl
  · intro q e
    unfold extract_specific_answer
    rw [factsOf_fill]

/-- **C10.**  The matcher and the extractor are deterministic — equal
inputs give equal outputs, with no dependence on randomness or hidden
state — unlike the response-generation collaborator, whose output
changes with the random draw on the very same inputs. -/
theorem c10_determinism :
    (∀ (q₁ q₂ : String) (es₁ es₂ : List FaqEntry) (e₁ e₂ : FaqEntry),
      q₁ = q₂ → es₁ = es₂ → e₁ = e₂ →
      get_relevant_info q₁ es₁ = get_relevant_info q₂ es₂ ∧
      extract_specific_answer q₁ e₁ = extract_specific_answer q₂ e₂) ∧
    generate_not_found_response 0 "en" ≠ generate_not_found_response 1 "en" := by
  constructor
  · rintro q₁ q₂ es₁ es₂ e₁ e₂ rfl rfl rfl
    exact ⟨rfl, rfl⟩
  · decide

/-- Witness for `c10_determinism` at a concrete input. -/
theorem c10_determinism_witness :
    get_relevant_info "x" [entXPat] = get_relevant_info "x" [entXPat] ∧
    extract_specific_answer "x" entBlank = extract_specific_answer "x" entBlank :=
  c10_determinism.1 "x" "x" [entXPat] [entXPat] entBlank entBlank rfl rfl rfl

/-! ## The fuzzy selection of get_close_matches (C2) -/

theorem nlargest1Step_isSome (acc : Option ((Nat × Nat) × String))
    (p : (Nat × Nat) × String) : ∃ x, nlargest1Step acc p = some x := by
  unfold nlargest1Step
  cases acc with
  | none => exact ⟨p, rfl⟩
  | some q =>
    dsimp only
    split
    · exact ⟨p, rfl⟩
    · exact ⟨q, rfl⟩

theorem nlargest1Step_some {acc : Option ((Nat × Nat) × String)}
    {p x : (Nat × Nat) × String} (h : nlargest1Step acc p = some x) :
    (x = p ∨ acc = some x) ∧ pairQ p.1 ≤ pairQ x.1 ∧
    (∀ a, acc = some a → pairQ a.1 ≤ pairQ x.1) := by
  cases acc with
  | none =>
    rw [nlargest1Step] at h
    obtain rfl : p = x := by simpa using h
    exact ⟨Or.inl rfl, le_refl _, fun a ha => by cases ha⟩
  | some q =>
    rw [nlargest1Step] at h
    by_cases hc : pairLt q.1 p.1 = true ∨ (pairEqv q.1 p.1 = true ∧ q.2 < p.2)
    · rw [if_pos hc] at h
      obtain rfl : p = x := by simpa using h
      have hq : pairQ q.1 ≤ pairQ p.1 := by
        rcases hc with hlt | ⟨heq, _⟩
        · exact ((pairLt_iff q.1 p.1).mp hlt).le
        · exact ((pairEqv_iff q.1 p.1).mp heq).le
      exact ⟨Or.inl rfl, le_refl _,
        fun a ha => by cases ha; exact hq⟩
    · rw [if_neg hc] at h
      obtain rfl : q = x := by simpa using h
      have hp : pairQ p.1 ≤ pairQ q.1 := by
        have hnl : pairLt q.1 p.1 = false := by
          rcases Bool.eq_false_or_eq_true (pairLt q.1 p.1) with hb | hb
          · exact absurd (Or.inl hb) hc
          · exact hb
        have : pairLe p.1 q.1 = true := by
          have := congrArg Bool.not hnl
          rw [pairLt] at hnl
          simpa using hnl
        exact (pairLe_iff p.1 q.1).mp this
      exact ⟨Or.inr rfl, hp, fun a ha => by cases ha; exact le_refl _⟩

theorem foldl_nlargest1_spec (l : List ((Nat × Nat) × String)) :
    ∀ (acc : Option ((Nat × Nat) × String)) (res : (Nat × Nat) × String),
      l.foldl nlargest1Step acc = some res →
      (res ∈ l ∨ acc = some res) ∧ (∀ p ∈ l, pairQ p.1 ≤ pairQ res.1) ∧
      (∀ a, acc = some a → pairQ a.1 ≤ pairQ res.1) := by
  induction l with
  | nil =>
    intro acc res h
    rw [List.foldl_nil] at h
    refine ⟨Or.inr h, by simp, fun a ha => ?_⟩
    rw [h] at ha
    obtain rfl : a = res := by simpa using ha.symm
    exact le_refl _
  | cons p l ih =>
    intro acc res h
    rw [List.foldl_cons] at h
    obtain ⟨x, hx⟩ := nlargest1Step_isSome acc p
    rw [hx] at h
    obtain ⟨hmem, hall, hacc⟩ := ih (some x) res h
    obtain ⟨hxp, hpx, haccx⟩ := nlargest1Step_some hx
    have hxres : pairQ x.1 ≤ pairQ res.1 := hacc x rfl
    refine ⟨?_, ?_, ?_⟩
    · rcases hmem with hm | hm
      · exact Or.inl (List.mem_cons_of_mem _ hm)
      · obtain rfl : x = res := by simpa using hm
        rcases hxp with rfl | hxa
        · exact Or.inl (List.mem_cons_self _ _)
        · exact Or.inr hxa
    · intro p2 hp2
      rcases List.mem_cons.mp hp2 with rfl | hp2
      · exact le_trans hpx hxres
      · exact hall p2 hp2
    · intro a ha
      exact le_trans (haccx a ha) hxres

theorem getCloseMatch1_some {w : String} {ps : List String} {cn cd : Nat}
    {t : String} (h : getCloseMatch1 w ps cn cd = some t) :
    t ∈ ps ∧ pairLe (cn, cd) (ratioPair t w) = true ∧
    ∀ x ∈ ps, pairLe (cn, cd) (ratioPair x w) = true →
      ratioQ x w ≤ ratioQ t w := by
  unfold getCloseMatch1 at h
  obtain ⟨pr, hfold, hpr2⟩ := Option.map_eq_some'.mp h
  obtain ⟨hmem, hall, _⟩ := foldl_nlargest1_spec _ none pr hfold
  have hmem2 : pr ∈ ps.filterMap fun x =>
      if pairLe (cn, cd) (ratioPair x w) = true then
        some (ratioPair x w, x) else none := by
    rcases hmem with hm | hm
    · exact hm
    · cases hm
  obtain ⟨x, hxps, hxpr⟩ := List.mem_filterMap.mp hmem2
  by_cases hg : pairLe (cn, cd) (ratioPair x w) = true
  · rw [if_pos hg] at hxpr
    obtain rfl : (ratioPair x w, x) = pr := by simpa using hxpr
    obtain rfl : x = t := hpr2
    refine ⟨hxps, hg, ?_⟩
    intro u hu hgu
    have : (ratioPair u w, u) ∈ ps.filterMap fun y =>
        if pairLe (cn, cd) (ratioPair y w) = true then
          some (ratioPair y w, y) else none :=
      List.mem_filterMap.mpr ⟨u, hu, by rw [if_pos hgu]⟩
    have hle := hall _ this
    rw [ratioQ_eq_pairQ u w, ratioQ_eq_pairQ x w]
    exact hle
  · rw [if_neg hg] at hxpr
    cases hxpr

theorem getCloseMatch1_none {w : String} {ps : List String} {cn cd : Nat}
    (h : ∀ x ∈ ps, pairLe (cn, cd) (ratioPair x w) = false) :
    getCloseMatch1 w ps cn cd = none := by
  unfold getCloseMatch1
  have hnil : (ps.filterMap fun x =>
      if pairLe (cn, cd) (ratioPair x w) = true then
        some (ratioPair x w, x) else none) = [] :=
    List.filterMap_eq_nil_iff.mpr fun x hx => by simp [h x hx]
  rw [hnil]
  rfl

/-- The 0.5 cutoff test of the abhi variant, as a rational bound. -/
theorem cutoff_half (t w : String) :
    pairLe (1, 2) (ratioPair t w) = true ↔ (1 : ℚ)/2 ≤ ratioQ t w := by
  have hq : pairQ (1, 2) = (1 : ℚ)/2 := by norm_num [pairQ]
  rw [pairLe_iff, hq, ratioQ_eq_pairQ]

/-- **C2.**  In the fuzzy tag pass of the abhi variant the *whole*
normalized query is compared against every normalized tag: whenever the
pattern pass fails and an entry is returned, it is the owning entry of
a tag whose ratio reaches the cutoff `1/2` and is maximal among all
tags; and when every tag scores strictly below `1/2`, `find_entry`
returns none. -/
theorem c2_fuzzy_whole_query :
    (∀ (q : String) (es : List FaqEntry) (e : FaqEntry),
      patternPass q es = none → Abhi.get_relevant_info q es = some e →
      ∃ t ∈ allTags es, (1 : ℚ)/2 ≤ ratioQ t (normalize q) ∧
        (∀ u ∈ allTags es, ratioQ u (normalize q) ≤ ratioQ t (normalize q)) ∧
        dictLookup (tagPairs es) t = some e) ∧
    (∀ (q : String) (es : List FaqEntry),
      patternPass q es = none →
      (∀ t ∈ allTags es, ratioQ t (normalize q) < 1/2) →
      Abhi.get_relevant_info q es = none) := by
  constructor
  · intro q es e hpp habhi
    cases es with
    | nil => simp [Abhi.get_relevant_info] at habhi
    | cons a l =>
      unfold Abhi.get_relevant_info at habhi
      rw [if_neg (by simp), hpp] at habhi
      obtain ⟨t, hgcm, hlk⟩ := Option.bind_eq_some.mp habhi
      obtain ⟨htmem, hcut, hmax⟩ := getCloseMatch1_some hgcm
      refine ⟨t, htmem, (cutoff_half t (normalize q)).mp hcut, ?_, hlk⟩
      intro u hu
      by_cases hcu : pairLe (1, 2) (ratioPair u (normalize q)) = true
      · exact hmax u hu hcu
      · have hlt : ratioQ u (normalize q) < 1/2 := by
          rw [← not_le, ← cutoff_half]
          simp [hcu]
        exact le_trans hlt.le ((cutoff_half t (normalize q)).mp hcut)
  · intro q es hpp hlow
    cases es with
    | nil => rfl
    | cons a l =>
      unfold Abhi.get_relevant_info
      rw [if_neg (by simp), hpp]
      have hfalse : ∀ x ∈ allTags (a :: l),
          pairLe (1, 2) (ratioPair x (normalize q)) = false := by
        intro x hx
        rw [Bool.eq_false_iff]
        intro hcontra
        exact absurd ((cutoff_half x (normalize q)).mp hcontra)
          (not_le.mpr (hlow x hx))
      rw [getCloseMatch1_none hfalse]
      rfl

/-- Witness for `c2_fuzzy_whole_query`: the spec's fuzzy example — the
whole query `"corses available"` against the tag `"courses"` has ratio
`12/23 ≥ 1/2`, so the pass returns the courses entry. -/
theorem c2_fuzzy_whole_query_witness :
    ∃ t ∈ allTags [entCourses],
      (1 : ℚ)/2 ≤ ratioQ t (normalize "corses available") ∧
      (∀ u ∈ allTags [entCourses],
        ratioQ u (normalize "corses available") ≤
          ratioQ t (normalize "corses available")) ∧
      dictLookup (tagPairs [entCourses]) t = some entCourses :=
  c2_fuzzy_whole_query.1 "corses available" [entCourses] entCourses
    (by decide) (by decide)

end KB
